import Mathlib

/-!
Verification of the `@truyman/cli` command-line framework.

This file gives a shallow embedding of the framework's core: the suggestion
engine (`src/suggestions.ts`), the option/argument resolution and routing
logic of the `Command` class (`src/command.ts`), the construction-time schema
validation, and the error taxonomy (`src/errors.ts`).

JavaScript dynamic values are modelled by the inductive type `JSVal`
(`undefined`, booleans, numbers, strings, arrays).  JavaScript objects used as
string-keyed records are modelled by association lists, with property access
returning `JSVal.undefined` for absent keys, matching JavaScript semantics.
JavaScript numbers are modelled on their integer fragment (`Int`), which is
the only fragment exercised by the framework's tests and by the concrete
inputs below; `Number(string)` coercion is modelled by `jsStrNumber`, with
`none` playing the role of `NaN`.

The external `mri` argv tokenizer is not part of this repository; it is
modelled from the specification's stated tokenizer contract (declared boolean
flags never consume a following token, string flags take `=`-joined or
space-joined values, short aliases resolve to long names, repeated flags
collapse to the last value, and negatable booleans additionally declare a
`no-<name>` boolean flag).
-/

/-- A JavaScript scalar value as it appears inside the arrays produced by the
tokenizer and by multiple-option collection (arrays in this program only ever
hold scalars). -/
inductive JSPrim where
  | bool (b : Bool)
  | num (n : Int)
  | str (s : String)
deriving DecidableEq, Repr

/-- A JavaScript runtime value, restricted to the shapes that flow through the
framework: `undefined`, booleans, (integer) numbers, strings and flat arrays
of scalars. -/
inductive JSVal where
  | undefined
  | bool (b : Bool)
  | num (n : Int)
  | str (s : String)
  | arr (xs : List JSPrim)
deriving DecidableEq, Repr

/-- View a scalar as a value. -/
def JSPrim.toVal : JSPrim → JSVal
  | .bool b => .bool b
  | .num n => .num n
  | .str s => .str s

/-- Look up a key in a string-keyed association list (first match wins, as in
a JavaScript object, whose keys are unique). -/
def lookupAssoc {α : Type} (ps : List (String × α)) (k : String) : Option α :=
  match ps.find? (fun p => p.1 = k) with
  | some p => some p.2
  | none => none

/-- Whether the key is present in the association list. -/
def hasKey {α : Type} (ps : List (String × α)) (k : String) : Bool :=
  (lookupAssoc ps k).isSome

/-- JavaScript property write `obj[k] = v`: updates the value in place if the
key exists (keeping its insertion position), otherwise appends it. -/
def setAssoc {α : Type} (ps : List (String × α)) (k : String) (v : α) : List (String × α) :=
  if hasKey ps k then ps.map (fun p => if p.1 = k then (k, v) else p)
  else ps ++ [(k, v)]

/-- JavaScript object spread `\x7b ...a, ...b \x7d`: keys of `a` keep their
positions but values from `b` win; keys only in `b` are appended in order. -/
def mergeAssoc {α : Type} (a b : List (String × α)) : List (String × α) :=
  a.map (fun p => (p.1,
    match lookupAssoc b p.1 with
    | some w => w
    | none => p.2)) ++
  b.filter (fun p => ¬ hasKey a p.1)

/-- JavaScript property read `obj[k]` on a `JSVal`-valued record: absent keys
read as `undefined`. -/
def getProp (ps : List (String × JSVal)) (k : String) : JSVal :=
  (lookupAssoc ps k).getD .undefined

/-- Models `Number(s)` for a string `s`, on the integer fragment of JavaScript
numbers: optional sign followed by decimal digits; the empty string is `0`;
`none` stands for `NaN`. -/
def jsStrNumber (s : String) : Option Int :=
  let cs := s.toList
  if cs = [] then some 0
  else
    let (sign, digits) :=
      match cs with
      | '-' :: rest => ((-1 : Int), rest)
      | '+' :: rest => ((1 : Int), rest)
      | rest => ((1 : Int), rest)
    if digits ≠ [] ∧ digits.all Char.isDigit then
      some (sign * (digits.foldl (fun acc c => acc * 10 + (c.toNat - 48)) 0 : Nat))
    else none

/-- Models `Number(v)` for a scalar. -/
def jsPrimNumber : JSPrim → Option Int
  | .bool b => some (if b then 1 else 0)
  | .num n => some n
  | .str s => jsStrNumber s

/-- Models `Number(v)` for the `JSVal` shapes that reach numeric coercion. -/
def jsNumber : JSVal → Option Int
  | .undefined => none
  | .bool b => some (if b then 1 else 0)
  | .num n => some n
  | .str s => jsStrNumber s
  | .arr [] => some 0
  | .arr [x] => jsPrimNumber x
  | .arr (_ :: _ :: _) => none

/-- Models `String(v)` for a scalar. -/
def jsPrimToString : JSPrim → String
  | .bool b => if b then "true" else "false"
  | .num n => toString n
  | .str s => s

/-- Models `String(v)` for the `JSVal` shapes that reach re-serialization. -/
def jsToString : JSVal → String
  | .undefined => "undefined"
  | .bool b => if b then "true" else "false"
  | .num n => toString n
  | .str s => s
  | .arr xs => String.intercalate "," (xs.map jsPrimToString)

/-- The scalar type of an option or positional argument
(`"string" | "number" | "boolean"` in `src/types.ts`). -/
inductive OptionType where
  | string
  | number
  | boolean
deriving DecidableEq, Repr

/-- A normalized option spec (an entry of `NormalizedOptions`): the long name
is always present.  `envVar` is the environment-variable fallback name
declared by the spec's data model (`env` in the option tables consumed by
help and completions). -/
structure OptionDef where
  long : String
  short : Option String := none
  type : OptionType := .string
  multiple : Bool := false
  negatable : Bool := false
  required : Bool := false
  default : JSVal := .undefined
  envVar : Option String := none
deriving DecidableEq, Repr

/-- A raw option spec as written by the user (`Option` in `src/types.ts`):
the long name may be omitted, in which case the table key is used. -/
structure RawOption where
  long : Option String := none
  short : Option String := none
  type : OptionType := .string
  multiple : Bool := false
  negatable : Bool := false
  required : Bool := false
  default : JSVal := .undefined
  envVar : Option String := none
deriving DecidableEq, Repr

/-- `normalizeOptions` from `src/command.ts`: every entry gets an explicit
long name, inferred from its table key when omitted. -/
def normalizeOptions (options : List (String × RawOption)) : List (String × OptionDef) :=
  options.map (fun p =>
    (p.1, { long := p.2.long.getD p.1, short := p.2.short, type := p.2.type,
            multiple := p.2.multiple, negatable := p.2.negatable,
            required := p.2.required, default := p.2.default, envVar := p.2.envVar }))

/-- A positional argument spec (`PositionalArg` in `src/types.ts`). -/
structure PositionalArg where
  name : String
  type : OptionType := .string
  optional : Bool := false
  variadic : Bool := false
deriving DecidableEq, Repr

/-- The error taxonomy of `src/errors.ts`, plus `construction` for the plain
`Error` throws of the `Command` constructor and `noHandler` for the plain
`Error` thrown by `runLeaf` on a handlerless leaf. -/
inductive CliError where
  | invalidOption (msg : String)
  | missingOption (long : String)
  | missingArgument (name : String)
  | invalidArgument (msg : String)
  | missingSubcommand (cmdName : String) (available : List String)
  | unknownSubcommand (sub : String) (available : List String) (suggestions : List String)
  | unknownOption (opt : String) (available : List String) (suggestions : List String)
  | reservedOption (flag : String)
  | construction (msg : String)
  | noHandler (name : String)
deriving DecidableEq, Repr

deriving instance DecidableEq for Except

/-! ### Suggestion engine (`src/suggestions.ts`) -/

/-- One row-extension step of the single-row Levenshtein loop: given the
character `ca` of the first string, the remaining characters of the second
string, the previous row starting at index `j - 1`, and the value already
computed at the current row's index `j - 1`, produce the rest of the current
row. -/
def levRowAux (ca : Char) : List Char → List Nat → Nat → List Nat
  | cb :: bs, pj0 :: pj1 :: ps, left =>
      let cost := if ca = cb then 0 else 1
      let cur := min (pj1 + 1) (min (left + 1) (pj0 + cost))
      cur :: levRowAux ca bs (pj1 :: ps) cur
  | _, _, _ => []

/-- `levenshteinDistance` from `src/suggestions.ts`: case-insensitive edit
distance computed with the single-row dynamic-programming loop of the source
(`ASCII` lowercasing models `toLowerCase`). -/
def levenshteinDistance (a b : String) : Nat :=
  let aL := a.toList.map Char.toLower
  let bL := b.toList.map Char.toLower
  if aL = bL then 0
  else if aL.length = 0 then bL.length
  else if bL.length = 0 then aL.length
  else
    let final := aL.foldl
      (fun prevRow ca => (prevRow.headD 0 + 1) :: levRowAux ca bL prevRow (prevRow.headD 0 + 1))
      (List.range (bL.length + 1))
    final.getLastD 0

/-- A candidate together with its distance (`SuggestionResult`). -/
structure SuggestionResult where
  candidate : String
  distance : Nat
deriving DecidableEq, Repr

/-- Lexicographic code-point comparison of character lists (an executable
model of string ordering; `String`'s own order does not evaluate in the
kernel). -/
def charsLE : List Char → List Char → Bool
  | [], _ => true
  | _ :: _, [] => false
  | a :: as, b :: bs => if a = b then charsLE as bs else decide (a < b)

/-- Lexicographic code-point order on strings, modelling the source's
`localeCompare` tie-break. -/
def strLE (a b : String) : Bool :=
  charsLE a.toList b.toList

/-- The sort order of `findSuggestions`: distance ascending, then candidate
lexical order. -/
def suggestionLE (a b : SuggestionResult) : Prop :=
  a.distance < b.distance ∨ (a.distance = b.distance ∧ strLE a.candidate b.candidate = true)

instance : DecidableRel suggestionLE := fun a b => by
  unfold suggestionLE
  infer_instance

/-- The default threshold of `findSuggestions`:
`min(3, floor(0.4 × input.length) + 1)`.  `2 * n / 5` in natural-number
arithmetic equals `floor(0.4 * n)` as computed by the source for every length
where the `min` with 3 is not already saturated. -/
def defaultThreshold (input : String) : Nat :=
  min 3 (2 * input.length / 5 + 1)

/-- Whether a candidate qualifies for suggestion: within the threshold and
not an exact case-sensitive match. -/
def qualifies (input : String) (threshold : Nat) (c : String) : Bool :=
  levenshteinDistance input c ≤ threshold ∧ (0 < levenshteinDistance input c ∨ input ≠ c)

/-- The qualifying candidates of `findSuggestions`, paired with their
distances. -/
def suggestionResults (input : String) (threshold : Nat) (candidates : List String) :
    List SuggestionResult :=
  candidates.filterMap (fun c =>
    if qualifies input threshold c then
      some { candidate := c, distance := levenshteinDistance input c }
    else none)

/-- `findSuggestions` from `src/suggestions.ts`: no suggestions for inputs
shorter than 2 characters; otherwise filter by `qualifies`, sort by
`suggestionLE` (a stable sort, as JavaScript's) and return at most 3. -/
def findSuggestions (input : String) (candidates : List String)
    (maxDistance : Option Nat := none) : List String :=
  if input.length < 2 then []
  else
    let threshold := maxDistance.getD (defaultThreshold input)
    ((List.insertionSort suggestionLE (suggestionResults input threshold candidates)).take 3).map
      (fun r => r.candidate)

/-! ### Tokenizer (external `mri` package, modelled from the spec's contract) -/

/-- The result of tokenizing an argument vector (`mri.Argv`): the ordered
non-flag tokens (`_`) and the parsed flag map. -/
structure Parsed where
  pos : List String
  props : List (String × JSVal)
deriving DecidableEq, Repr

/-- Strip the leading dash run of a flag token. -/
def dropDashes (s : String) : String :=
  String.mk (s.toList.dropWhile (fun c => c = '-'))

/-- Split a flag body at the first `=` into name and optional joined value. -/
def splitEq (s : String) : String × Option String :=
  let cs := s.toList
  let name := cs.takeWhile (fun c => c ≠ '=')
  match cs.dropWhile (fun c => c ≠ '=') with
  | [] => (String.mk name, none)
  | _ :: v => (String.mk name, some (String.mk v))

/-- The flag declarations handed to the tokenizer.  `booleanFlags`,
`stringFlags` and `aliases` are built exactly as in
`Command.parseArgvWithOptions`; `multiFlags` records which long names carry
array semantics (the spec's tokenizer contract collapses repeated flags to
the last value unless the consumer requests array semantics, which the
framework does for `multiple` options). -/
structure FlagLists where
  booleanFlags : List String
  stringFlags : List String
  aliases : List (String × String)
  multiFlags : List String
deriving DecidableEq, Repr

/-- One iteration of the flag-declaration loop of
`Command.parseArgvWithOptions`: a boolean option contributes its long name
(and `no-` form if negatable) to the boolean flags, any other option its
long name to the string flags, and a short alias maps to the long name. -/
def flagListsStep (fl : FlagLists) (p : String × OptionDef) : FlagLists :=
  let opt := p.2
  let fl :=
    if opt.type = .boolean then
      { fl with booleanFlags := fl.booleanFlags ++ [opt.long] ++
          (if opt.negatable then ["no-" ++ opt.long] else []) }
    else { fl with stringFlags := fl.stringFlags ++ [opt.long] }
  let fl :=
    match opt.short with
    | some s => { fl with aliases := fl.aliases ++ [(s, opt.long)] }
    | none => fl
  if opt.multiple then { fl with multiFlags := fl.multiFlags ++ [opt.long] } else fl

/-- The flag-declaration loop of `Command.parseArgvWithOptions`. -/
def buildFlagLists (optionDefs : List (String × OptionDef)) : FlagLists :=
  optionDefs.foldl flagListsStep ⟨[], [], [], []⟩

/-- Record one flag occurrence: flags with array semantics accumulate
repeated occurrences into an array (scalar first, array from the second
occurrence on); all other flags collapse to the last value. -/
def recordFlag (props : List (String × JSVal)) (multiFlags : List String)
    (k : String) (v : JSPrim) : List (String × JSVal) :=
  if k ∈ multiFlags then
    match lookupAssoc props k with
    | some (.arr xs) => setAssoc props k (.arr (xs ++ [v]))
    | some (.bool b) => setAssoc props k (.arr [.bool b, v])
    | some (.num n) => setAssoc props k (.arr [.num n, v])
    | some (.str s) => setAssoc props k (.arr [.str s, v])
    | _ => setAssoc props k v.toVal
  else setAssoc props k v.toVal

/-- Whether a token is a flag token (its first character is the flag
marker). -/
def isFlagToken (t : String) : Bool :=
  t.toList.head? = some '-'

/-- Handle one token that is not awaited as a string-flag value: non-flag
tokens are collected as positionals; a declared boolean flag records `true`
and never consumes a following token; a declared string flag takes its
`=`-joined value or awaits the following token (returned as the pending
flag name); undeclared flags are recorded as they appear.  Short aliases
resolve to long names. -/
def mriHandle (fl : FlagLists) (acc : Parsed) (t : String) : Parsed × Option String :=
  if ¬ isFlagToken t then ({ acc with pos := acc.pos ++ [t] }, none)
  else
    let (name0, eqVal) := splitEq (dropDashes t)
    let name := (lookupAssoc fl.aliases name0).getD name0
    if name ∈ fl.booleanFlags then
      ({ acc with props := recordFlag acc.props fl.multiFlags name (.bool true) }, none)
    else if name ∈ fl.stringFlags then
      match eqVal with
      | some v => ({ acc with props := recordFlag acc.props fl.multiFlags name (.str v) }, none)
      | none => (acc, some name)
    else
      match eqVal with
      | some v => ({ acc with props := recordFlag acc.props fl.multiFlags name (.str v) }, none)
      | none => ({ acc with props := recordFlag acc.props fl.multiFlags name (.bool true) }, none)

/-- The token loop: a pending string flag takes the next non-flag token as
its value (or the empty string if the next token is a flag, in which case
that token is then handled normally). -/
def mriFold (fl : FlagLists) : List String → Parsed × Option String → Parsed × Option String
  | [], st => st
  | t :: rest, (acc, pending) =>
    match pending with
    | none => mriFold fl rest (mriHandle fl acc t)
    | some name =>
      if isFlagToken t then
        mriFold fl rest
          (mriHandle fl { acc with props := recordFlag acc.props fl.multiFlags name (.str "") } t)
      else
        mriFold fl rest
          ({ acc with props := recordFlag acc.props fl.multiFlags name (.str t) }, none)

/-- Modelled from the spec: the external `mri` tokenizer (not repository
code), per the stated contract.  A string flag still pending at the end of
argv receives the empty string as its value. -/
def mriParse (fl : FlagLists) (argv : List String) : Parsed :=
  match mriFold fl argv (⟨[], []⟩, none) with
  | (acc, none) => acc
  | (acc, some name) => { acc with props := recordFlag acc.props fl.multiFlags name (.str "") }

/-- `Command.parseArgvWithOptions`: build the flag declarations from the
option table and tokenize. -/
def parseArgvWithOptions (argv : List String) (optionDefs : List (String × OptionDef)) : Parsed :=
  mriParse (buildFlagLists optionDefs) argv


/-! ### Option and argument resolution (`Command` in `src/command.ts`) -/

/-- Sequential mapping with exceptions, modelling a JavaScript `array.map`
whose callback may throw: the first throw aborts the whole map. -/
def mapExcept {α β : Type} (f : α → Except CliError β) : List α → Except CliError (List β)
  | [] => .ok []
  | x :: xs => do
    let y ← f x
    let ys ← mapExcept f xs
    .ok (y :: ys)

/-- `Command.coerceToNumber`: numeric coercion of an option value;
non-numeric input raises `InvalidOptionError`. -/
def coerceToNumber (value : JSVal) (key : String) : Except CliError JSVal :=
  match jsNumber value with
  | some n => .ok (.num n)
  | none => .error (.invalidOption (key ++ " must be a number"))

/-- Numeric coercion of one collected array element. -/
def coercePrimToNumber (value : JSPrim) (key : String) : Except CliError JSPrim :=
  match jsPrimNumber value with
  | some n => .ok (.num n)
  | none => .error (.invalidOption (key ++ " must be a number"))

/-- `Command.extractMultipleOptionValue`: absence yields `[]`, an array is
taken as is, a scalar is wrapped into a one-element array; for number
options every element is coerced independently. -/
def extractMultipleOptionValue (value : JSVal) (opt : OptionDef) (key : String) :
    Except CliError (List JSPrim) :=
  let arr : List JSPrim :=
    match value with
    | .undefined => []
    | .arr xs => xs
    | .bool b => [.bool b]
    | .num n => [.num n]
    | .str s => [.str s]
  if opt.type = .number then mapExcept (fun v => coercePrimToNumber v key) arr
  else .ok arr

/-- `Command.extractNegatableBoolean`: an explicit `no-<long>` value of
`true` forces `false`; otherwise a defined plain value is returned as is;
otherwise the declared default. -/
def extractNegatableBoolean (parsed : Parsed) (opt : OptionDef) : JSVal :=
  if getProp parsed.props ("no-" ++ opt.long) = .bool true then .bool false
  else
    match getProp parsed.props opt.long with
    | .undefined => opt.default
    | v => v

/-- The per-option body of the loop of `Command.extractOptionsFromDefs`,
including the trailing required check. -/
def resolveOptionValue (parsed : Parsed) (key : String) (opt : OptionDef) :
    Except CliError JSVal := do
  let value := getProp parsed.props opt.long
  let resolved ←
    if opt.multiple then
      (extractMultipleOptionValue value opt key).map JSVal.arr
    else if opt.type = .number then
      match value with
      | .undefined => pure opt.default
      | v => coerceToNumber v key
    else if opt.type = .boolean ∧ opt.negatable then
      pure (extractNegatableBoolean parsed opt)
    else
      pure (if value = .undefined then opt.default else value)
  if opt.required ∧ resolved = .undefined then .error (.missingOption opt.long)
  else .ok resolved

/-- `Command.extractOptionsFromDefs`: resolve every option spec of the table
in order, stopping at the first error. -/
def extractOptionsFromDefs (parsed : Parsed) (optionDefs : List (String × OptionDef)) :
    Except CliError (List (String × JSVal)) :=
  mapExcept (fun p => (resolveOptionValue parsed p.1 p.2).map (fun v => (p.1, v))) optionDefs

/-- The loop of `Command.extractArgs`, indexed by the current positional
ordinal. -/
def extractArgsAux (pos : List String) : Nat → List PositionalArg → Except CliError (List JSVal)
  | _, [] => .ok []
  | i, arg :: restSpecs =>
    if arg.variadic then
      let remaining := pos.drop i
      if ¬ arg.optional ∧ remaining = [] then .error (.missingArgument arg.name)
      else do
        let typed ← mapExcept (fun value =>
          match arg.type with
          | .number =>
            match jsStrNumber value with
            | some n => Except.ok (JSPrim.num n)
            | none => Except.error (CliError.invalidArgument (arg.name ++ " values must be numbers"))
          | .boolean => Except.ok (JSPrim.bool (value = "true"))
          | .string => Except.ok (JSPrim.str value)) remaining
        .ok [JSVal.arr typed]
    else
      match pos.get? i with
      | none =>
        if ¬ arg.optional then .error (.missingArgument arg.name)
        else do
          let rest ← extractArgsAux pos (i + 1) restSpecs
          .ok (JSVal.undefined :: rest)
      | some value => do
        let tv ←
          match arg.type with
          | .number =>
            match jsStrNumber value with
            | some n => Except.ok (JSVal.num n)
            | none => Except.error (CliError.invalidArgument (arg.name ++ " must be a number"))
          | .boolean => Except.ok (JSVal.bool (value = "true"))
          | .string => Except.ok (JSVal.str value)
        let rest ← extractArgsAux pos (i + 1) restSpecs
        .ok (tv :: rest)

/-- `Command.extractArgs`: positional resolution in spec order (a variadic
spec consumes all remaining positionals and ends the loop). -/
def extractArgs (parsed : Parsed) (specs : List PositionalArg) : Except CliError (List JSVal) :=
  extractArgsAux parsed.pos 0 specs

/-! ### The command tree (`Command` class) -/

/-- A command node: name, aliases (declared by the spec's data model),
positional specs, normalized own and inherited option tables, whether a
handler is attached, and the child list (empty for leaves). -/
inductive Cmd where
  | mk (name : String) (aliases : List String) (args : List PositionalArg)
       (options : List (String × OptionDef)) (inherits : List (String × OptionDef))
       (hasHandler : Bool) (subcommands : List Cmd)

def Cmd.name : Cmd → String
  | .mk n _ _ _ _ _ _ => n

def Cmd.aliases : Cmd → List String
  | .mk _ a _ _ _ _ _ => a

def Cmd.args : Cmd → List PositionalArg
  | .mk _ _ a _ _ _ _ => a

def Cmd.options : Cmd → List (String × OptionDef)
  | .mk _ _ _ o _ _ _ => o

def Cmd.inherits : Cmd → List (String × OptionDef)
  | .mk _ _ _ _ i _ _ => i

def Cmd.hasHandler : Cmd → Bool
  | .mk _ _ _ _ _ h _ => h

def Cmd.subcommands : Cmd → List Cmd
  | .mk _ _ _ _ _ _ s => s

/-- The subcommand map built by the constructor
(`new Map(subcommands.map((cmd) => [cmd.name, cmd]))`): later duplicates
overwrite in place, as for a JavaScript `Map`. -/
def Cmd.subMap (c : Cmd) : List (String × Cmd) :=
  c.subcommands.foldl (fun m sub => setAssoc m sub.name sub) []

/-- `Command.getSubcommand`: exact name lookup in the subcommand map. -/
def Cmd.getSubcommand (c : Cmd) (n : String) : Option Cmd :=
  lookupAssoc c.subMap n

/-- `Command.getSubcommandNames`. -/
def Cmd.subcommandNames (c : Cmd) : List String :=
  c.subMap.map (fun p => p.1)

/-- `Command.isParent`: the node has a (non-empty) subcommand map. -/
def Cmd.isParent (c : Cmd) : Bool :=
  ¬ c.subcommands.isEmpty

/-- The observable outcome of running a leaf: which command's handler was
invoked, with which typed positionals and which option map. -/
structure HandlerCall where
  cmdName : String
  handlerArgs : List JSVal
  options : List (String × JSVal)
deriving DecidableEq, Repr

/-- `Command.runLeaf`: parse argv against the merged option table
(own over inherited), resolve positionals, resolve own options and
inherited-from-argv options, and merge
`\x7b ...inheritedFromArgv, ...inheritedOptions, ...ownOptions \x7d`. -/
def runLeaf (c : Cmd) (argv : List String) (inheritedOptions : List (String × JSVal)) :
    Except CliError HandlerCall := do
  let mergedOptionDefs := mergeAssoc c.inherits c.options
  let parsed := parseArgvWithOptions argv mergedOptionDefs
  let args ← extractArgs parsed c.args
  let ownOptions ← extractOptionsFromDefs parsed c.options
  let inheritedFromArgv ← extractOptionsFromDefs parsed c.inherits
  let options := mergeAssoc (mergeAssoc inheritedFromArgv inheritedOptions) ownOptions
  if c.hasHandler then
    .ok { cmdName := c.name, handlerArgs := args, options := options }
  else .error (.noHandler c.name)

/-- `Command.reconstructArgv`: re-serialize, after the remaining
positionals, every parsed option that is not declared on this node (inherited
options are passed through to the subcommand). -/
def reconstructArgv (positionals : List String) (parsed : Parsed)
    (ownDefs : List (String × OptionDef)) : List String :=
  parsed.props.foldl
    (fun result p =>
      let isOwnOption := ownDefs.any (fun q => q.2.long = p.1 ∨ q.2.short = some p.1)
      if isOwnOption then result
      else
        match p.2 with
        | .bool true => result ++ ["--" ++ p.1]
        | .bool false => result
        | .undefined => result
        | v => result ++ ["--" ++ p.1, jsToString v])
    positionals

/-- The dispatch decision of a parent node: which child to run, with which
reconstructed argv and which merged inherited values. -/
structure ParentDispatch where
  child : String
  argv : List String
  inherited : List (String × JSVal)
deriving DecidableEq, Repr

/-- `Command.runParent` up to the recursive call into the child: resolve the
parent's own options, merge the defined ones over the inherited values, then
route on the first positional token. -/
def runParentStep (c : Cmd) (argv : List String)
    (inheritedOptions : List (String × JSVal)) : Except CliError ParentDispatch := do
  let parsed := parseArgvWithOptions argv c.options
  let parentOpts ← extractOptionsFromDefs parsed c.options
  let definedParentOpts := parentOpts.filter (fun p => p.2 ≠ .undefined)
  let mergedInherited := mergeAssoc inheritedOptions definedParentOpts
  match parsed.pos.head? with
  | none => .error (.missingSubcommand c.name c.subcommandNames)
  | some sub =>
    if sub = "" ∨ isFlagToken sub then
      .error (.missingSubcommand c.name c.subcommandNames)
    else
      match c.getSubcommand sub with
      | none => .error (.unknownSubcommand sub c.subcommandNames [])
      | some child =>
        .ok { child := child.name,
              argv := reconstructArgv (parsed.pos.drop 1) parsed c.options,
              inherited := mergedInherited }

/-! ### Construction-time validation (the `Command` constructor) -/

/-- The raw definition handed to the constructor (`CommandOptions` in
`src/types.ts`).  `isParentDef` models the `"subcommands" in opts` check of
`isParentOptions`. -/
structure CommandDef where
  name : String
  options : List (String × RawOption) := []
  args : List PositionalArg := []
  inherits : List (String × RawOption) := []
  hasHandler : Bool := false
  isParentDef : Bool := false
  subcommands : List Cmd := []

/-- `Command.validateArgs`: a variadic positional anywhere but last is a
construction-time error. -/
def validateArgs (args : List PositionalArg) : Except CliError Unit :=
  match args.findIdx? (fun a => a.variadic) with
  | some i =>
    if i ≠ args.length - 1 then
      .error (.construction "Variadic argument must be the last argument")
    else .ok ()
  | none => .ok ()

/-- `Command.validateOptionConflicts`: no key may appear in both the own and
the inherited option tables. -/
def validateOptionConflicts (options inherits : List (String × OptionDef)) :
    Except CliError Unit :=
  let conflicts := options.filter (fun p => hasKey inherits p.1)
  if conflicts.isEmpty then .ok ()
  else
    .error (.construction ("Option keys conflict with inherited: " ++
      String.intercalate ", " (conflicts.map (fun p => p.1))))

/-- Whether a normalized option spec claims a reserved name. -/
def reservedViolation (opt : OptionDef) : Bool :=
  opt.long = "help" ∨ opt.long = "version" ∨ opt.short = some "h" ∨ opt.short = some "V"

/-- `Command.validateReservedOptions`: the long names `help`/`version` and
the short aliases `h`/`V` are reserved; the first violating option throws a
`ReservedOptionError` (long name checked before short alias). -/
def validateReservedOptions : List (String × OptionDef) → Except CliError Unit
  | [] => .ok ()
  | p :: ps =>
    if p.2.long = "help" ∨ p.2.long = "version" then
      .error (.reservedOption ("--" ++ p.2.long))
    else
      match p.2.short with
      | some s =>
        if s = "h" ∨ s = "V" then .error (.reservedOption ("-" ++ s))
        else validateReservedOptions ps
      | none => validateReservedOptions ps

/-- The `Command` constructor: normalization, the parent/leaf split, and the
construction-time validations, in source order. -/
def mkCommand (d : CommandDef) : Except CliError Cmd := do
  let options := normalizeOptions d.options
  if d.isParentDef then do
    if d.subcommands.length = 0 then
      throw (.construction "Parent command must have at least one subcommand")
    validateReservedOptions options
    pure (Cmd.mk d.name [] [] options [] false d.subcommands)
  else do
    let inherits := normalizeOptions d.inherits
    validateArgs d.args
    validateOptionConflicts options inherits
    validateReservedOptions inherits
    validateReservedOptions options
    pure (Cmd.mk d.name [] d.args options inherits d.hasHandler [])

/-! ### Spec-modelled components

The current resolution/routing sources of the repository extend the snapshot
embedded above with environment fallbacks, hybrid nodes, suggestion wiring
and strict unknown-flag checking; those parts are not present under the
snapshot's `command.ts` and are modelled here from the specification. -/

/-- Modelled from the spec: environment fallback for boolean options — the
raw variable value is `true` iff it case-insensitively equals `1`, `true` or
`yes`. -/
def envBoolValue (raw : String) : Bool :=
  let l := raw.map Char.toLower
  l = "1" ∨ l = "true" ∨ l = "yes"

/-- Modelled from the spec: coercion of an environment variable's raw string
value per the option's declared type. -/
def envCoerce (opt : OptionDef) (raw : String) (key : String) : Except CliError JSVal :=
  match opt.type with
  | .boolean => .ok (.bool (envBoolValue raw))
  | .number => coerceToNumber (.str raw) key
  | .string => .ok (.str raw)

/-- Modelled from the spec: scalar option resolution with the precedence
chain, explicit CLI token over environment-variable fallback over declared
default, followed by the required check.  The environment is an association
list of variable names to raw values.  (The snapshot's
`extractOptionsFromDefs` implements the same chain without the environment
step.) -/
def resolveOptionValueEnv (envm : List (String × String)) (parsed : Parsed)
    (key : String) (opt : OptionDef) : Except CliError JSVal := do
  let value := getProp parsed.props opt.long
  let resolved ←
    if value ≠ .undefined then
      if opt.type = .number then coerceToNumber value key else pure value
    else
      match opt.envVar.bind (fun e => lookupAssoc envm e) with
      | some raw => envCoerce opt raw key
      | none => pure opt.default
  if opt.required ∧ resolved = .undefined then .error (.missingOption opt.long)
  else .ok resolved

/-- All aliases declared by the children of a node. -/
def Cmd.subAliases (c : Cmd) : List String :=
  (c.subcommands.map Cmd.aliases).flatten

/-- Name-or-alias child lookup (aliases are functionally identical to names
for lookup). -/
def Cmd.getSubcommandOrAlias (c : Cmd) (n : String) : Option Cmd :=
  match c.getSubcommand n with
  | some sub => some sub
  | none => c.subcommands.find? (fun sub => n ∈ sub.aliases)

/-- The outcome of one routing step at a node with children: either a
handler ran (hybrid fallback) or the step dispatches to a child. -/
inductive RouteOutcome where
  | ran (call : HandlerCall)
  | dispatch (d : ParentDispatch)
deriving DecidableEq, Repr

/-- Whether the remaining argv offers no usable subcommand token: no
positional token at all, or an empty or flag-like first token (the condition
of the snapshot's `runParent`). -/
def noUsableToken (parsed : Parsed) : Bool :=
  match parsed.pos.head? with
  | none => true
  | some sub => sub = "" || isFlagToken sub

/-- Modelled from the spec: the routing step at a node with children as
implemented by the current command sources (the snapshot's `runParent` lacks
the hybrid-handler fallback and the suggestion wiring; the rest of this
function follows the snapshot).  With no usable subcommand token, a hybrid
node falls back to leaf resolution and a pure parent raises
`MissingSubcommandError` carrying the declared child names; an unmatched
token raises `UnknownSubcommandError` whose suggestions come from the
suggestion engine over all child names and aliases. -/
def routeStep (c : Cmd) (argv : List String)
    (inheritedOptions : List (String × JSVal)) : Except CliError RouteOutcome := do
  let parsed := parseArgvWithOptions argv c.options
  let parentOpts ← extractOptionsFromDefs parsed c.options
  let definedParentOpts := parentOpts.filter (fun p => p.2 ≠ .undefined)
  let mergedInherited := mergeAssoc inheritedOptions definedParentOpts
  if noUsableToken parsed then
    if c.hasHandler then (runLeaf c argv inheritedOptions).map .ran
    else .error (.missingSubcommand c.name c.subcommandNames)
  else
    let sub := (parsed.pos.head?).getD ""
    match c.getSubcommandOrAlias sub with
    | none =>
      .error (.unknownSubcommand sub c.subcommandNames
        (findSuggestions sub (c.subcommandNames ++ c.subAliases) none))
    | some child =>
      let d : ParentDispatch :=
        { child := child.name,
          argv := reconstructArgv (parsed.pos.drop 1) parsed c.options,
          inherited := mergedInherited }
      .ok (.dispatch d)

/-- The name of a flag token: leading dashes stripped, cut at the first
`=`. -/
def flagNameOf (t : String) : String :=
  (splitEq (dropDashes t)).1

/-- Modelled from the spec: the set of option names in scope for the
unknown-flag check — every declared long name (including the `no-` forms of
negatable booleans, exactly the boolean/string flag lists the snapshot hands
to the tokenizer), every short alias, and the two built-ins with their short
forms. -/
def scopeNames (ownDefs inheritedDefs : List (String × OptionDef)) : List String :=
  let fl := buildFlagLists (mergeAssoc inheritedDefs ownDefs)
  fl.booleanFlags ++ fl.stringFlags ++ fl.aliases.map (fun p => p.1) ++
    ["help", "version", "h", "V"]

/-- Modelled from the spec: strict unknown-flag checking — the first argv
token that begins with the flag marker and whose name is not declared in
scope yields an `UnknownOptionError` carrying the in-scope names and the
suggestion engine's candidates over them. -/
def checkUnknownOption (ownDefs inheritedDefs : List (String × OptionDef))
    (argv : List String) : Option CliError :=
  let names := scopeNames ownDefs inheritedDefs
  match argv.find? (fun t => isFlagToken t && ¬ names.contains (flagNameOf t)) with
  | some t =>
    some (.unknownOption t names (findSuggestions (flagNameOf t) names none))
  | none => none

/-- The leaf merge order asserted by the specification, for comparison with
`runLeaf`: own options over inherited-from-argv options over values already
resolved by ancestors. -/
def specClaimedLeafMerge (inheritedFromArgv ancestorResolved ownOptions :
    List (String × JSVal)) : List (String × JSVal) :=
  mergeAssoc (mergeAssoc ancestorResolved inheritedFromArgv) ownOptions

/-- The error, if any, produced by constructing a command from a raw
definition (command values themselves carry no decidable equality, so
construction outcomes are observed through this projection). -/
def constructionError (r : Except CliError Cmd) : Option CliError :=
  match r with
  | .error e => some e
  | .ok _ => none

/-! ### Association-list lemmas -/

theorem lookupAssoc_nil {α : Type} (k : String) : lookupAssoc ([] : List (String × α)) k = none := rfl

theorem lookupAssoc_cons {α : Type} (p : String × α) (ps : List (String × α)) (k : String) :
    lookupAssoc (p :: ps) k = if p.1 = k then some p.2 else lookupAssoc ps k := by
  by_cases h : p.1 = k <;> simp [lookupAssoc, List.find?_cons, h]

theorem lookupAssoc_append {α : Type} (a b : List (String × α)) (k : String) :
    lookupAssoc (a ++ b) k =
      match lookupAssoc a k with
      | some v => some v
      | none => lookupAssoc b k := by
  induction a with
  | nil => simp [lookupAssoc_nil]
  | cons p a ih =>
    by_cases h : p.1 = k <;> simp [lookupAssoc_cons, h, ih]

theorem lookupAssoc_mapEntries {α : Type} (a : List (String × α)) (F : String × α → α) (k : String) :
    lookupAssoc (a.map (fun p => (p.1, F p))) k =
      match a.find? (fun p => p.1 = k) with
      | some p => some (F p)
      | none => none := by
  induction a with
  | nil => simp [lookupAssoc_nil]
  | cons p a ih =>
    by_cases h : p.1 = k
    · simp [lookupAssoc_cons, h, List.find?_cons, ih]
    · simp [lookupAssoc_cons, h, List.find?_cons, ih]

theorem lookupAssoc_filterKey {α : Type} (b : List (String × α)) (g : String → Bool) (k : String) :
    lookupAssoc (b.filter (fun p => g p.1)) k =
      if g k then lookupAssoc b k else none := by
  induction b with
  | nil => simp [lookupAssoc_nil]
  | cons p b ih =>
    by_cases hp : p.1 = k
    · subst hp
      by_cases hg : g p.1 <;> simp [List.filter_cons, hg, lookupAssoc_cons, ih]
    · by_cases hg : g p.1 <;> simp [List.filter_cons, hg, lookupAssoc_cons, hp, ih]

theorem find?_eq_some_key {α : Type} {a : List (String × α)} {k : String} {p : String × α}
    (h : a.find? (fun q => q.1 = k) = some p) : p.1 = k := by
  have := List.find?_some h
  simpa using this

/-- The key law of JavaScript spread: in `mergeAssoc a b`, the value from
`b` wins on overlapping keys, and each key falls back to the other list. -/
theorem lookupAssoc_mergeAssoc {α : Type} (a b : List (String × α)) (k : String) :
    lookupAssoc (mergeAssoc a b) k =
      match lookupAssoc b k with
      | some v => some v
      | none => lookupAssoc a k := by
  unfold mergeAssoc
  rw [lookupAssoc_append]
  rw [lookupAssoc_mapEntries]
  have hfil : lookupAssoc (b.filter (fun p => ¬ hasKey a p.1)) k =
      if ¬ hasKey a k then lookupAssoc b k else none := by
    simpa using lookupAssoc_filterKey b (fun s => ¬ hasKey a s) k
  cases hfind : a.find? (fun q => q.1 = k) with
  | some p =>
    have hkey : hasKey a k = true := by
      unfold hasKey lookupAssoc
      rw [hfind]
      rfl
    have hlk : lookupAssoc a k = some p.2 := by
      unfold lookupAssoc
      rw [hfind]
    cases hb : lookupAssoc b k with
    | some w =>
      have hpk : p.1 = k := find?_eq_some_key hfind
      simp [hpk, hb]
    | none =>
      have hpk : p.1 = k := find?_eq_some_key hfind
      simp [hpk, hb, hlk]
  | none =>
    have hlk : lookupAssoc a k = none := by
      unfold lookupAssoc
      rw [hfind]
    have hkey : hasKey a k = false := by
      unfold hasKey
      rw [hlk]
      rfl
    rw [hfil]
    simp [hkey, hlk]
    cases hb : lookupAssoc b k <;> simp

theorem lookupAssoc_mapSet_self {α : Type} (ps : List (String × α)) (k : String) (v : α)
    (h : hasKey ps k = true) :
    lookupAssoc (ps.map (fun p => if p.1 = k then (k, v) else p)) k = some v := by
  induction ps with
  | nil => simp [hasKey, lookupAssoc_nil] at h
  | cons p ps ih =>
    by_cases hp : p.1 = k
    · simp [List.map_cons, hp, lookupAssoc_cons]
    · have h2 : hasKey ps k = true := by
        simpa [hasKey, lookupAssoc_cons, hp] using h
      simp [List.map_cons, hp, lookupAssoc_cons, ih h2]

theorem lookupAssoc_mapSet_ne {α : Type} (ps : List (String × α)) (k k2 : String) (v : α)
    (h : k2 ≠ k) :
    lookupAssoc (ps.map (fun p => if p.1 = k then (k, v) else p)) k2 = lookupAssoc ps k2 := by
  induction ps with
  | nil => rfl
  | cons p ps ih =>
    by_cases hp : p.1 = k
    · have hk2 : ¬ (p.1 = k2) := by
        rw [hp]
        exact fun hc => h hc.symm
      simp [List.map_cons, hp, lookupAssoc_cons, Ne.symm h, hk2, ih]
    · simp [List.map_cons, hp, lookupAssoc_cons, ih]

theorem lookupAssoc_setAssoc_self {α : Type} (ps : List (String × α)) (k : String) (v : α) :
    lookupAssoc (setAssoc ps k v) k = some v := by
  unfold setAssoc
  cases hk : hasKey ps k with
  | true => simp [lookupAssoc_mapSet_self ps k v hk]
  | false =>
    have hnone : lookupAssoc ps k = none := by
      unfold hasKey at hk
      cases hl : lookupAssoc ps k with
      | some w => rw [hl] at hk; simp at hk
      | none => rfl
    simp [lookupAssoc_append, hnone, lookupAssoc_cons]

theorem lookupAssoc_setAssoc_ne {α : Type} (ps : List (String × α)) (k k2 : String) (v : α)
    (h : k2 ≠ k) : lookupAssoc (setAssoc ps k v) k2 = lookupAssoc ps k2 := by
  unfold setAssoc
  cases hk : hasKey ps k with
  | true => simp [lookupAssoc_mapSet_ne ps k k2 v h]
  | false =>
    have hke : ¬ (k = k2) := fun hc => h hc.symm
    simp only [Bool.false_eq_true, if_false]
    rw [lookupAssoc_append]
    simp only [lookupAssoc_cons, lookupAssoc_nil, hke, if_false]
    cases hl : lookupAssoc ps k2 <;> simp

/-! ### Order lemmas for the suggestion sort -/

theorem charsLE_total : ∀ as bs : List Char, charsLE as bs = true ∨ charsLE bs as = true
  | [], _ => Or.inl rfl
  | _ :: _, [] => Or.inr rfl
  | a :: as, b :: bs => by
    by_cases hab : a = b
    · subst hab
      cases charsLE_total as bs with
      | inl h => exact Or.inl (by simpa [charsLE] using h)
      | inr h => exact Or.inr (by simpa [charsLE] using h)
    · cases lt_or_gt_of_ne hab with
      | inl h => exact Or.inl (by simp [charsLE, hab, h])
      | inr h =>
        have hba : ¬ (b = a) := fun hc => hab hc.symm
        exact Or.inr (by simp [charsLE, hba, h])

theorem charsLE_trans : ∀ as bs cs : List Char,
    charsLE as bs = true → charsLE bs cs = true → charsLE as cs = true
  | [], _, _, _, _ => rfl
  | _ :: _, [], _, h1, _ => by simp [charsLE] at h1
  | _ :: _, _ :: _, [], _, h2 => by simp [charsLE] at h2
  | a :: as, b :: bs, c :: cs, h1, h2 => by
    by_cases hab : a = b
    · subst hab
      by_cases hac : a = c
      · subst hac
        simp only [charsLE, if_pos rfl] at h1 h2 ⊢
        exact charsLE_trans as bs cs h1 h2
      · simp only [charsLE, if_pos rfl] at h1
        simp only [charsLE, if_neg hac] at h2 ⊢
        exact h2
    · simp only [charsLE, if_neg hab] at h1
      have hab2 : a < b := of_decide_eq_true h1
      by_cases hbc : b = c
      · subst hbc
        simp only [charsLE, if_neg hab]
        exact decide_eq_true hab2
      · simp only [charsLE, if_neg hbc] at h2
        have hbc2 : b < c := of_decide_eq_true h2
        have hac2 : a < c := lt_trans hab2 hbc2
        have hac : ¬ (a = c) := ne_of_lt hac2
        simp only [charsLE, if_neg hac]
        exact decide_eq_true hac2

instance : IsTotal SuggestionResult suggestionLE where
  total := by
    intro a b
    unfold suggestionLE
    rcases Nat.lt_trichotomy a.distance b.distance with h | h | h
    · exact Or.inl (Or.inl h)
    · cases charsLE_total a.candidate.toList b.candidate.toList with
      | inl hc => exact Or.inl (Or.inr ⟨h, hc⟩)
      | inr hc => exact Or.inr (Or.inr ⟨h.symm, hc⟩)
    · exact Or.inr (Or.inl h)

instance : IsTrans SuggestionResult suggestionLE where
  trans := by
    intro a b c hab hbc
    unfold suggestionLE at *
    rcases hab with h1 | ⟨h1, hc1⟩
    · rcases hbc with h2 | ⟨h2, _⟩
      · exact Or.inl (lt_trans h1 h2)
      · exact Or.inl (h2 ▸ h1)
    · rcases hbc with h2 | ⟨h2, hc2⟩
      · exact Or.inl (h1 ▸ h2)
      · exact Or.inr ⟨h1.trans h2, charsLE_trans _ _ _ hc1 hc2⟩

/-! ### Facts about the suggestion engine -/

theorem suggestionResults_eq (input : String) (threshold : Nat) (candidates : List String) :
    suggestionResults input threshold candidates =
      (candidates.filter (qualifies input threshold)).map
        (fun c => { candidate := c, distance := levenshteinDistance input c }) := by
  induction candidates with
  | nil => rfl
  | cons c cs ih =>
    unfold suggestionResults at *
    cases hq : qualifies input threshold c <;>
      simp [List.filterMap_cons, List.filter_cons, hq, ih]

theorem mem_suggestionResults {input : String} {threshold : Nat} {candidates : List String}
    {r : SuggestionResult} (h : r ∈ suggestionResults input threshold candidates) :
    r.candidate ∈ candidates ∧ r.distance = levenshteinDistance input r.candidate ∧
      qualifies input threshold r.candidate = true := by
  unfold suggestionResults at h
  rw [List.mem_filterMap] at h
  obtain ⟨c, hc, hf⟩ := h
  by_cases hq : qualifies input threshold c = true
  · rw [if_pos hq] at hf
    cases hf
    exact ⟨hc, rfl, hq⟩
  · rw [if_neg hq] at hf
    cases hf

/-- C8: for every call of the suggestion function with no explicit
threshold: an input shorter than 2 characters yields the empty list; every
returned candidate comes from the candidate list, lies within the default
threshold `min(3, floor(0.4 × input length) + 1)` and is not an exact
case-sensitive match (distance 0 with differing casing is retained by the
qualification predicate); at most 3 results are returned, sorted by distance
ascending and then candidate lexical order; and whenever at most 3
candidates qualify, every qualifying candidate is returned. -/
theorem c8_suggestion_engine (input : String) (candidates : List String) :
    (input.length < 2 → findSuggestions input candidates none = []) ∧
    (∀ c ∈ findSuggestions input candidates none,
      c ∈ candidates ∧
      levenshteinDistance input c ≤ defaultThreshold input ∧
      ¬ (levenshteinDistance input c = 0 ∧ input = c)) ∧
    (findSuggestions input candidates none).length ≤ 3 ∧
    List.Pairwise (fun a b =>
      levenshteinDistance input a < levenshteinDistance input b ∨
      (levenshteinDistance input a = levenshteinDistance input b ∧ strLE a b = true))
      (findSuggestions input candidates none) ∧
    (2 ≤ input.length →
      (candidates.filter (qualifies input (defaultThreshold input))).length ≤ 3 →
      ∀ c ∈ candidates, qualifies input (defaultThreshold input) c = true →
        c ∈ findSuggestions input candidates none) := by
  by_cases hshort : input.length < 2
  · refine ⟨fun _ => by simp [findSuggestions, hshort], ?_, ?_, ?_, ?_⟩
    · intro c hc
      simp [findSuggestions, hshort] at hc
    · simp [findSuggestions, hshort]
    · simp [findSuggestions, hshort]
    · intro h2
      omega
  · have hres : findSuggestions input candidates none =
        ((List.insertionSort suggestionLE
          (suggestionResults input (defaultThreshold input) candidates)).take 3).map
          (fun r => r.candidate) := by
      simp [findSuggestions, hshort, Option.getD]
    have hmemL : ∀ r, r ∈ (List.insertionSort suggestionLE
        (suggestionResults input (defaultThreshold input) candidates)).take 3 →
        r.candidate ∈ candidates ∧ r.distance = levenshteinDistance input r.candidate ∧
          qualifies input (defaultThreshold input) r.candidate = true := by
      intro r hr
      have hr2 := List.mem_of_mem_take hr
      rw [List.mem_insertionSort] at hr2
      exact mem_suggestionResults hr2
    refine ⟨fun h => absurd h hshort, ?_, ?_, ?_, ?_⟩
    · intro c hc
      rw [hres] at hc
      rw [List.mem_map] at hc
      obtain ⟨r, hr, hrc⟩ := hc
      obtain ⟨hcand, hdist, hq⟩ := hmemL r hr
      subst hrc
      have hq2 : levenshteinDistance input r.candidate ≤ defaultThreshold input ∧
          (0 < levenshteinDistance input r.candidate ∨ ¬ input = r.candidate) := by
        simpa [qualifies] using hq
      refine ⟨hcand, hq2.1, ?_⟩
      rcases hq2.2 with h4 | h4
      · intro hc
        omega
      · exact fun hc => h4 hc.2
    · rw [hres]
      rw [List.length_map, List.length_take]
      omega
    · rw [hres]
      rw [List.pairwise_map]
      have hsorted : List.Sorted suggestionLE (List.insertionSort suggestionLE
          (suggestionResults input (defaultThreshold input) candidates)) :=
        List.sorted_insertionSort suggestionLE _
      have htake : List.Pairwise suggestionLE ((List.insertionSort suggestionLE
          (suggestionResults input (defaultThreshold input) candidates)).take 3) :=
        List.Pairwise.sublist (List.take_sublist 3 _) hsorted
      refine List.Pairwise.imp_of_mem ?_ htake
      intro a b ha hb hab
      obtain ⟨_, hda, _⟩ := hmemL a ha
      obtain ⟨_, hdb, _⟩ := hmemL b hb
      unfold suggestionLE at hab
      unfold strLE
      rw [hda, hdb] at hab
      exact hab
    · intro h2 hlen c hc hq
      have heq := suggestionResults_eq input (defaultThreshold input) candidates
      have hreslen : (suggestionResults input (defaultThreshold input) candidates).length ≤ 3 := by
        rw [heq, List.length_map]
        exact hlen
      have hsortlen : (List.insertionSort suggestionLE
          (suggestionResults input (defaultThreshold input) candidates)).length ≤ 3 := by
        rw [List.length_insertionSort]
        exact hreslen
      have htake : (List.insertionSort suggestionLE
          (suggestionResults input (defaultThreshold input) candidates)).take 3 =
          List.insertionSort suggestionLE
            (suggestionResults input (defaultThreshold input) candidates) :=
        List.take_of_length_le hsortlen
      rw [hres, htake]
      rw [List.mem_map]
      refine ⟨{ candidate := c, distance := levenshteinDistance input c }, ?_, rfl⟩
      rw [List.mem_insertionSort]
      unfold suggestionResults
      rw [List.mem_filterMap]
      exact ⟨c, hc, by rw [if_pos hq]⟩

/-- Witness for C8 at concrete inputs: a one-character input yields no
suggestions, and for the parent scenario input the qualifying candidate is
returned. -/
theorem c8_suggestion_engine_witness :
    findSuggestions "a" ["add"] none = [] ∧
    "add" ∈ findSuggestions "addd" ["add", "list", "remove"] none := by
  constructor
  · exact (c8_suggestion_engine "a" ["add"]).1 (by decide)
  · exact (c8_suggestion_engine "addd" ["add", "list", "remove"]).2.2.2.2 (by decide) (by decide)
      "add" (by decide) (by decide)

/-! ### Concrete commands and options used in witnesses -/

/-- The negatable boolean `color` option of the spec's scenario, with a
configurable default. -/
def colorOptD (dflt : JSVal) : OptionDef :=
  { long := "color", type := .boolean, negatable := true, default := dflt }

/-- The option table declaring only `color`. -/
def colorDefsD (dflt : JSVal) : List (String × OptionDef) :=
  [("color", colorOptD dflt)]

/-- The `port` option of the spec's scenario, with default 3000 and an
environment fallback. -/
def portOpt : OptionDef :=
  { long := "port", type := .number, default := .num 3000, envVar := some "PORT" }

/-- The option table declaring only `port`. -/
def portDefs : List (String × OptionDef) := [("port", portOpt)]

/-- A `multiple` string option. -/
def tagOpt : OptionDef := { long := "tag", type := .string, multiple := true }

/-- The option table declaring only `tag`. -/
def tagDefs : List (String × OptionDef) := [("tag", tagOpt)]

/-- A `multiple` and `required` string option with no default. -/
def tagReqOpt : OptionDef :=
  { long := "tag", type := .string, multiple := true, required := true }

/-- The option table declaring only the required `tag`. -/
def tagReqDefs : List (String × OptionDef) := [("tag", tagReqOpt)]

/-- An inherited boolean `verbose` option with default `false`. -/
def verboseInheritDef : OptionDef :=
  { long := "verbose", type := .boolean, default := .bool false }

/-- A leaf command with no own options that inherits `verbose`. -/
def demoLeaf : Cmd :=
  Cmd.mk "leaf" [] [] [] [("verbose", verboseInheritDef)] true []

/-- Leaf children named `add`, `list` and `remove`. -/
def addCmd : Cmd := Cmd.mk "add" [] [] [] [] true []

def listCmd : Cmd := Cmd.mk "list" [] [] [] [] true []

def removeCmd : Cmd := Cmd.mk "remove" [] [] [] [] true []

/-- The parent of the spec's scenario, with children `add`, `list`,
`remove` and no handler. -/
def parentDemo : Cmd :=
  Cmd.mk "parent" [] [] [] [] false [addCmd, listCmd, removeCmd]

/-- A hybrid node: a handler and one child. -/
def hybridDemo : Cmd :=
  Cmd.mk "hyb" [] [] [] [] true [addCmd]

/-- A leaf definition whose option table claims the reserved key `help`. -/
def demoReservedDef : CommandDef :=
  { name := "x", options := [("help", {})], hasHandler := true }

/-! ### C9 and C10: multiple-option resolution -/

theorem mapExcept_coercePrim_error : ∀ (xs : List JSPrim) (key : String) (e : CliError),
    mapExcept (fun v => coercePrimToNumber v key) xs = .error e → ∃ msg, e = .invalidOption msg
  | [], key, e, h => by simp [mapExcept] at h
  | x :: xs, key, e, h => by
    unfold mapExcept at h
    cases hx : coercePrimToNumber x key with
    | error e1 =>
      rw [hx] at h
      cases h
      unfold coercePrimToNumber at hx
      cases hj : jsPrimNumber x with
      | some n => rw [hj] at hx; cases hx
      | none =>
        rw [hj] at hx
        cases hx
        exact ⟨key ++ " must be a number", rfl⟩
    | ok y =>
      rw [hx] at h
      cases hrest : mapExcept (fun v => coercePrimToNumber v key) xs with
      | error e2 =>
        rw [hrest] at h
        cases h
        exact mapExcept_coercePrim_error xs key e (by rw [hrest])
      | ok ys =>
        rw [hrest] at h
        cases h

theorem extractMultipleOptionValue_error {value : JSVal} {opt : OptionDef} {key : String}
    {e : CliError} (h : extractMultipleOptionValue value opt key = .error e) :
    ∃ msg, e = .invalidOption msg := by
  unfold extractMultipleOptionValue at h
  by_cases ht : opt.type = OptionType.number
  · rw [if_pos ht] at h
    exact mapExcept_coercePrim_error _ key e h
  · rw [if_neg ht] at h
    cases h

/-- The multiple branch of option resolution, written out: the required
check never interferes because the collected value is an array, never
`undefined`. -/
theorem resolveOptionValue_multiple (parsed : Parsed) (key : String) (opt : OptionDef)
    (hm : opt.multiple = true) :
    resolveOptionValue parsed key opt =
      (extractMultipleOptionValue (getProp parsed.props opt.long) opt key).map JSVal.arr := by
  unfold resolveOptionValue
  rw [hm]
  simp only [if_pos rfl]
  cases hE : extractMultipleOptionValue (getProp parsed.props opt.long) opt key with
  | error e => simp [hE, Except.map, Bind.bind, Except.bind]
  | ok xs => simp [hE, Except.map, Bind.bind, Except.bind]

/-- C9: for every option spec with `multiple: true`, resolution always
yields a sequence: absence of any occurrence yields the empty sequence (never
`undefined`), a single scalar occurrence is wrapped into a one-element
sequence, every collected element is coerced independently (the whole
resolution is elementwise coercion of the collected array), and every
successful resolution is an array, never a bare scalar or `undefined`. -/
theorem c9_multiple_always_sequence (parsed : Parsed) (key : String) (opt : OptionDef)
    (hm : opt.multiple = true) :
    (getProp parsed.props opt.long = .undefined →
      resolveOptionValue parsed key opt = .ok (.arr [])) ∧
    (∀ v : JSPrim, extractMultipleOptionValue (JSPrim.toVal v) opt key =
      extractMultipleOptionValue (.arr [v]) opt key) ∧
    (resolveOptionValue parsed key opt =
      (extractMultipleOptionValue (getProp parsed.props opt.long) opt key).map JSVal.arr) ∧
    (∀ r, resolveOptionValue parsed key opt = .ok r → ∃ xs, r = .arr xs) := by
  have hmain := resolveOptionValue_multiple parsed key opt hm
  refine ⟨?_, ?_, hmain, ?_⟩
  · intro hu
    rw [hmain, hu]
    cases ht : opt.type <;> simp [extractMultipleOptionValue, ht, mapExcept, Except.map]
  · intro v
    cases v <;> rfl
  · intro r hr
    rw [hmain] at hr
    cases hE : extractMultipleOptionValue (getProp parsed.props opt.long) opt key with
    | error e => rw [hE] at hr; cases hr
    | ok xs =>
      rw [hE] at hr
      simp [Except.map] at hr
      exact ⟨xs, hr.symm⟩

/-- Witness for C9: a single occurrence resolves to a one-element sequence
and absence resolves to the empty sequence. -/
theorem c9_multiple_always_sequence_witness :
    resolveOptionValue (parseArgvWithOptions ["--tag", "a"] tagDefs) "tag" tagOpt =
      .ok (.arr [.str "a"]) ∧
    resolveOptionValue (parseArgvWithOptions [] tagDefs) "tag" tagOpt = .ok (.arr []) := by
  constructor
  · have h := (c9_multiple_always_sequence
      (parseArgvWithOptions ["--tag", "a"] tagDefs) "tag" tagOpt rfl).2.2.1
    rw [h]
    decide
  · exact (c9_multiple_always_sequence
      (parseArgvWithOptions [] tagDefs) "tag" tagOpt rfl).1 (by decide)

/-- C10: an option spec with both `multiple: true` and `required: true`
never raises `MissingOptionError`: even with no occurrence in argv and no
default, absence resolves to the empty sequence, which is not `undefined`,
so the required check passes. -/
theorem c10_multiple_required_no_missing (parsed : Parsed) (key : String) (opt : OptionDef)
    (hm : opt.multiple = true) (hreq : opt.required = true) :
    (∀ long, resolveOptionValue parsed key opt ≠ .error (.missingOption long)) ∧
    (getProp parsed.props opt.long = .undefined →
      resolveOptionValue parsed key opt = .ok (.arr [])) := by
  have hmain := resolveOptionValue_multiple parsed key opt hm
  constructor
  · intro long hcontra
    rw [hmain] at hcontra
    cases hE : extractMultipleOptionValue (getProp parsed.props opt.long) opt key with
    | error e =>
      rw [hE] at hcontra
      simp [Except.map] at hcontra
      obtain ⟨msg, hmsg⟩ := extractMultipleOptionValue_error hE
      rw [hmsg] at hcontra
      cases hcontra
    | ok xs =>
      rw [hE] at hcontra
      simp [Except.map] at hcontra
  · intro hu
    rw [hmain, hu]
    cases ht : opt.type <;> simp [extractMultipleOptionValue, ht, mapExcept, Except.map]

/-- Witness for C10: the required multiple option, absent from argv and
without default, resolves to the empty sequence rather than raising
`MissingOptionError`. -/
theorem c10_multiple_required_no_missing_witness :
    resolveOptionValue (parseArgvWithOptions [] tagReqDefs) "tag" tagReqOpt = .ok (.arr []) ∧
    resolveOptionValue (parseArgvWithOptions [] tagReqDefs) "tag" tagReqOpt ≠
      .error (.missingOption "tag") := by
  constructor
  · exact (c10_multiple_required_no_missing
      (parseArgvWithOptions [] tagReqDefs) "tag" tagReqOpt rfl rfl).2 (by decide)
  · exact (c10_multiple_required_no_missing
      (parseArgvWithOptions [] tagReqDefs) "tag" tagReqOpt rfl rfl).1 "tag"

/-! ### C1: value precedence with environment fallback -/

theorem coerceToNumber_ok {v : JSVal} {key : String} {w : JSVal}
    (h : coerceToNumber v key = .ok w) : ∃ n, w = .num n := by
  unfold coerceToNumber at h
  cases hj : jsNumber v with
  | some n =>
    rw [hj] at h
    cases h
    exact ⟨n, rfl⟩
  | none =>
    rw [hj] at h
    cases h

theorem envCoerce_ok {opt : OptionDef} {raw : String} {key : String} {w : JSVal}
    (h : envCoerce opt raw key = .ok w) : w ≠ .undefined := by
  unfold envCoerce at h
  cases ht : opt.type with
  | boolean =>
    rw [ht] at h
    cases h
    simp
  | number =>
    rw [ht] at h
    obtain ⟨n, hn⟩ := coerceToNumber_ok h
    simp [hn]
  | string =>
    rw [ht] at h
    cases h
    simp

/-- C1: for every option spec, resolution follows the precedence chain.  A
present CLI token resolves to that token's coerced value; with no CLI token,
a declared and set environment variable resolves to the environment value's
coerced value; with neither, the declared default is the result.  (The
environment step is modelled from the spec; the snapshot's
`extractOptionsFromDefs` implements the same chain without it.) -/
theorem c1_option_precedence (envm : List (String × String)) (parsed : Parsed)
    (key : String) (opt : OptionDef) :
    (getProp parsed.props opt.long ≠ .undefined →
      resolveOptionValueEnv envm parsed key opt =
        (if opt.type = .number
         then coerceToNumber (getProp parsed.props opt.long) key
         else .ok (getProp parsed.props opt.long))) ∧
    (∀ e raw, getProp parsed.props opt.long = .undefined → opt.envVar = some e →
      lookupAssoc envm e = some raw →
      resolveOptionValueEnv envm parsed key opt = envCoerce opt raw key) ∧
    (getProp parsed.props opt.long = .undefined →
      opt.envVar.bind (fun e => lookupAssoc envm e) = none →
      opt.default ≠ .undefined →
      resolveOptionValueEnv envm parsed key opt = .ok opt.default) := by
  refine ⟨?_, ?_, ?_⟩
  · intro hne
    by_cases ht : opt.type = OptionType.number
    · rw [if_pos ht]
      cases hE : coerceToNumber (getProp parsed.props opt.long) key with
      | error e =>
        unfold resolveOptionValueEnv
        rw [if_pos hne, if_pos ht, hE]
        rfl
      | ok w =>
        obtain ⟨n, hn⟩ := coerceToNumber_ok hE
        unfold resolveOptionValueEnv
        rw [if_pos hne, if_pos ht, hE]
        subst hn
        simp [Bind.bind, Except.bind]
    · rw [if_neg ht]
      unfold resolveOptionValueEnv
      rw [if_pos hne, if_neg ht]
      simp [Bind.bind, Except.bind, pure, Except.pure, hne]
  · intro e raw hu he hraw
    unfold resolveOptionValueEnv
    rw [if_neg (by simp [hu])]
    rw [hu] at *
    have hbind : opt.envVar.bind (fun e2 => lookupAssoc envm e2) = some raw := by
      rw [he]
      simpa using hraw
    rw [hbind]
    cases hE : envCoerce opt raw key with
    | error e2 => simp [hE, Bind.bind, Except.bind]
    | ok w =>
      have hw := envCoerce_ok hE
      simp [hE, Bind.bind, Except.bind, hw]
  · intro hu hnone hd
    unfold resolveOptionValueEnv
    rw [if_neg (by simp [hu])]
    rw [hnone]
    simp [Bind.bind, Except.bind, pure, Except.pure, hd]

/-- Witness for C1 at the spec's `port` scenario: CLI token 8080 wins over
environment 9000 and default 3000; without the CLI token the environment
value wins; without both the default is used. -/
theorem c1_option_precedence_witness :
    resolveOptionValueEnv [("PORT", "9000")]
      (parseArgvWithOptions ["--port", "8080"] portDefs) "port" portOpt = .ok (.num 8080) ∧
    resolveOptionValueEnv [("PORT", "9000")]
      (parseArgvWithOptions [] portDefs) "port" portOpt = .ok (.num 9000) ∧
    resolveOptionValueEnv [] (parseArgvWithOptions [] portDefs) "port" portOpt =
      .ok (.num 3000) := by
  refine ⟨?_, ?_, ?_⟩
  · have h := (c1_option_precedence [("PORT", "9000")]
      (parseArgvWithOptions ["--port", "8080"] portDefs) "port" portOpt).1 (by decide)
    rw [h]
    decide
  · have h := (c1_option_precedence [("PORT", "9000")]
      (parseArgvWithOptions [] portDefs) "port" portOpt).2.1 "PORT" "9000" (by decide) (by decide)
      (by decide)
    rw [h]
    decide
  · have h := (c1_option_precedence []
      (parseArgvWithOptions [] portDefs) "port" portOpt).2.2 (by decide) (by decide) (by decide)
    rw [h]
    decide

/-! ### C6: negatable booleans -/

theorem getProp_setAssoc_self (ps : List (String × JSVal)) (k : String) (v : JSVal) :
    getProp (setAssoc ps k v) k = v := by
  unfold getProp
  rw [lookupAssoc_setAssoc_self]
  rfl

theorem getProp_setAssoc_ne (ps : List (String × JSVal)) (k k2 : String) (v : JSVal)
    (h : k2 ≠ k) : getProp (setAssoc ps k v) k2 = getProp ps k2 := by
  unfold getProp
  rw [lookupAssoc_setAssoc_ne _ _ _ _ h]

/-- The flag declarations produced for the `color` option table. -/
def colorFL : FlagLists := ⟨["color", "no-color"], [], [], []⟩

/-- Over an argv consisting only of `--color` and `--no-color` tokens, the
tokenizer records each flag that occurs as `true` (and no string flag is
ever left pending). -/
theorem colorFold_char : ∀ (argv : List String),
    (∀ t ∈ argv, t = "--color" ∨ t = "--no-color") → ∀ acc : Parsed,
    getProp (mriFold colorFL argv (acc, none)).1.props "color" =
      (if "--color" ∈ argv then .bool true else getProp acc.props "color") ∧
    getProp (mriFold colorFL argv (acc, none)).1.props "no-color" =
      (if "--no-color" ∈ argv then .bool true else getProp acc.props "no-color") ∧
    (mriFold colorFL argv (acc, none)).2 = none
  | [], _, acc => by simp [mriFold]
  | t :: rest, h, acc => by
    have ht := h t (List.mem_cons_self t rest)
    have hrest : ∀ t2 ∈ rest, t2 = "--color" ∨ t2 = "--no-color" :=
      fun t2 h2 => h t2 (List.mem_cons_of_mem t h2)
    rcases ht with ht | ht
    · subst ht
      have hstep : mriFold colorFL ("--color" :: rest) (acc, none) =
          mriFold colorFL rest
            ({ acc with props := setAssoc acc.props "color" (.bool true) }, none) := rfl
      rw [hstep]
      obtain ⟨h1, h2, h3⟩ := colorFold_char rest hrest
        { acc with props := setAssoc acc.props "color" (.bool true) }
      refine ⟨?_, ?_, h3⟩
      · rw [h1]
        by_cases hm : "--color" ∈ rest <;>
          simp [hm, List.mem_cons, getProp_setAssoc_self]
      · rw [h2]
        have hne : "no-color" ≠ "color" := by decide
        by_cases hm : "--no-color" ∈ rest <;>
          simp [hm, List.mem_cons, getProp_setAssoc_ne _ _ _ _ hne]
    · subst ht
      have hstep : mriFold colorFL ("--no-color" :: rest) (acc, none) =
          mriFold colorFL rest
            ({ acc with props := setAssoc acc.props "no-color" (.bool true) }, none) := rfl
      rw [hstep]
      obtain ⟨h1, h2, h3⟩ := colorFold_char rest hrest
        { acc with props := setAssoc acc.props "no-color" (.bool true) }
      refine ⟨?_, ?_, h3⟩
      · rw [h1]
        have hne : "color" ≠ "no-color" := by decide
        by_cases hm : "--color" ∈ rest <;>
          simp [hm, List.mem_cons, getProp_setAssoc_ne _ _ _ _ hne]
      · rw [h2]
        by_cases hm : "--no-color" ∈ rest <;>
          simp [hm, List.mem_cons, getProp_setAssoc_self]

/-- C6: for the negatable boolean `color` option (with arbitrary declared
default), over any argv built from plain and negated occurrences: an
explicit `--no-color` occurrence resolves the option to `false` regardless
of whether `--color` is also present; otherwise a plain `--color` occurrence
resolves it to `true`; otherwise the declared default is used — `undefined`
when no default is declared. -/
theorem c6_negatable_boolean (dflt : JSVal) (argv : List String)
    (h : ∀ t ∈ argv, t = "--color" ∨ t = "--no-color") :
    extractNegatableBoolean (parseArgvWithOptions argv (colorDefsD dflt)) (colorOptD dflt) =
      (if "--no-color" ∈ argv then .bool false
       else if "--color" ∈ argv then .bool true
       else dflt) := by
  have hfl : buildFlagLists (colorDefsD dflt) = colorFL := rfl
  unfold parseArgvWithOptions
  rw [hfl]
  obtain ⟨h1, h2, h3⟩ := colorFold_char argv h ⟨[], []⟩
  unfold mriParse
  rcases hsplit : mriFold colorFL argv (⟨[], []⟩, none) with ⟨acc2, pend⟩
  rw [hsplit] at h1 h2 h3
  simp only at h3
  subst h3
  simp only
  unfold extractNegatableBoolean
  have hlong : (colorOptD dflt).long = "color" := rfl
  have hdef : (colorOptD dflt).default = dflt := rfl
  rw [hlong, hdef]
  have happ : "no-" ++ "color" = "no-color" := rfl
  rw [happ]
  simp only at h1 h2
  rw [h1, h2]
  by_cases hno : "--no-color" ∈ argv
  · simp [hno]
  · by_cases hcol : "--color" ∈ argv
    · simp [hno, hcol, getProp, lookupAssoc_nil]
    · simp [hno, hcol, getProp, lookupAssoc_nil]

/-- Witness for C6 at the spec's scenario inputs, including a combined
occurrence of the plain and negated forms. -/
theorem c6_negatable_boolean_witness :
    extractNegatableBoolean
      (parseArgvWithOptions ["--no-color"] (colorDefsD .undefined)) (colorOptD .undefined) =
        .bool false ∧
    extractNegatableBoolean
      (parseArgvWithOptions ["--color"] (colorDefsD .undefined)) (colorOptD .undefined) = .bool true ∧
    extractNegatableBoolean
      (parseArgvWithOptions [] (colorDefsD .undefined)) (colorOptD .undefined) = .undefined ∧
    extractNegatableBoolean
      (parseArgvWithOptions ["--color", "--no-color"] (colorDefsD .undefined)) (colorOptD .undefined) =
        .bool false := by
  refine ⟨?_, ?_, ?_, ?_⟩
  · rw [c6_negatable_boolean .undefined ["--no-color"] (by decide)]
    decide
  · rw [c6_negatable_boolean .undefined ["--color"] (by decide)]
    decide
  · rw [c6_negatable_boolean .undefined [] (by decide)]
    decide
  · rw [c6_negatable_boolean .undefined ["--color", "--no-color"] (by decide)]
    decide

/-! ### C2: the leaf merge order -/

/-- C2 counterexample: for a leaf inheriting `verbose` (default `false`)
with empty argv and an ancestor-resolved value `true`, `runLeaf` yields
`true` — the ancestor-resolved value wins over the leaf's own
inherited-table extraction (`false`, the default) — while the merge order
asserted by the specification (own over inherited-from-argv over
ancestor-resolved) would yield `false`.  The claim as stated is therefore
false on this input. -/
theorem c2_leaf_merge_counterexample :
    (runLeaf demoLeaf [] [("verbose", .bool true)]).map HandlerCall.options =
      .ok [("verbose", .bool true)] ∧
    extractOptionsFromDefs
      (parseArgvWithOptions [] (mergeAssoc demoLeaf.inherits demoLeaf.options))
      demoLeaf.inherits = .ok [("verbose", .bool false)] ∧
    specClaimedLeafMerge [("verbose", .bool false)] [("verbose", .bool true)] [] =
      [("verbose", .bool false)] ∧
    (runLeaf demoLeaf [] [("verbose", .bool true)]).map HandlerCall.options ≠
      .ok (specClaimedLeafMerge [("verbose", .bool false)] [("verbose", .bool true)] []) := by
  decide

/-- C2 (amended): when a leaf runs, its option map is built from the union
of its own and inherited option tables, and on overlapping keys the value
from the node's own options overrides the value already resolved by an
ancestor and passed down, which in turn overrides the value extracted at the
leaf from its inherited option table. -/
theorem c2_leaf_merge_order (c : Cmd) (argv : List String)
    (inheritedOptions : List (String × JSVal)) (ownVals inhVals : List (String × JSVal))
    (call : HandlerCall)
    (hOwn : extractOptionsFromDefs (parseArgvWithOptions argv (mergeAssoc c.inherits c.options))
      c.options = .ok ownVals)
    (hInh : extractOptionsFromDefs (parseArgvWithOptions argv (mergeAssoc c.inherits c.options))
      c.inherits = .ok inhVals)
    (hrun : runLeaf c argv inheritedOptions = .ok call) (k : String) :
    lookupAssoc call.options k =
      match lookupAssoc ownVals k with
      | some v => some v
      | none =>
        match lookupAssoc inheritedOptions k with
        | some v => some v
        | none => lookupAssoc inhVals k := by
  cases hA : extractArgs (parseArgvWithOptions argv (mergeAssoc c.inherits c.options)) c.args with
  | error e =>
    unfold runLeaf at hrun
    simp [Bind.bind, Except.bind, hA] at hrun
  | ok args0 =>
    unfold runLeaf at hrun
    simp only [Bind.bind, Except.bind, hA, hOwn, hInh] at hrun
    cases hH : c.hasHandler with
    | false =>
      rw [hH] at hrun
      simp at hrun
    | true =>
      rw [hH] at hrun
      rw [if_pos rfl] at hrun
      injection hrun with h2
      subst h2
      simp only
      rw [lookupAssoc_mergeAssoc, lookupAssoc_mergeAssoc]
      cases lookupAssoc ownVals k with
      | some v => rfl
      | none =>
        cases lookupAssoc inheritedOptions k with
        | some v => rfl
        | none => rfl

/-- Witness for the amended C2 at the counterexample input: the merged map
resolves `verbose` to the ancestor value `true`. -/
theorem c2_leaf_merge_order_witness :
    lookupAssoc [("verbose", JSVal.bool true)] "verbose" =
      (match lookupAssoc ([] : List (String × JSVal)) "verbose" with
       | some v => some v
       | none =>
         match lookupAssoc [("verbose", JSVal.bool true)] "verbose" with
         | some v => some v
         | none => lookupAssoc [("verbose", JSVal.bool false)] "verbose") := by
  exact c2_leaf_merge_order demoLeaf [] [("verbose", .bool true)] []
    [("verbose", .bool false)]
    { cmdName := "leaf", handlerArgs := [], options := [("verbose", .bool true)] }
    (by decide) (by decide) (by decide) "verbose"

/-! ### C3 and C4: routing at a node with children -/

/-- C3: at a node with children whose remaining argv offers no usable
subcommand token (and whose own options resolve), a node that also has a
handler runs it as the leaf-resolution fallback, and a node without a
handler raises `MissingSubcommandError` carrying the declared child names —
both in the spec-modelled routing step and, for the handlerless case, in the
snapshot's `runParent` embedding. -/
theorem c3_missing_subcommand (c : Cmd) (argv : List String)
    (inh : List (String × JSVal)) (vals : List (String × JSVal))
    (hchild : c.subcommands ≠ [])
    (hOpts : extractOptionsFromDefs (parseArgvWithOptions argv c.options) c.options = .ok vals)
    (hno : noUsableToken (parseArgvWithOptions argv c.options) = true) :
    (c.hasHandler = true →
      routeStep c argv inh = (runLeaf c argv inh).map RouteOutcome.ran) ∧
    (c.hasHandler = false →
      routeStep c argv inh = .error (.missingSubcommand c.name c.subcommandNames) ∧
      runParentStep c argv inh = .error (.missingSubcommand c.name c.subcommandNames)) := by
  constructor
  · intro hH
    unfold routeStep
    simp only [Bind.bind, Except.bind, hOpts, hno, if_pos rfl, hH, if_true]
  · intro hH
    constructor
    · unfold routeStep
      simp only [Bind.bind, Except.bind, hOpts, hno, if_pos rfl, hH]
      simp
    · unfold runParentStep
      simp only [Bind.bind, Except.bind, hOpts]
      unfold noUsableToken at hno
      cases hhead : (parseArgvWithOptions argv c.options).pos.head? with
      | none => simp [hhead]
      | some sub =>
        rw [hhead] at hno
        simp only at hno
        have hcond : sub = "" ∨ isFlagToken sub = true := by
          rcases Bool.or_eq_true _ _ |>.mp hno with h1 | h1
          · exact Or.inl (of_decide_eq_true h1)
          · exact Or.inr h1
        simp [hhead, hcond]

/-- Witness for C3: the hybrid node runs its handler on empty argv, the
plain parent raises `MissingSubcommandError` with its child names. -/
theorem c3_missing_subcommand_witness :
    routeStep hybridDemo [] [] =
      .ok (.ran { cmdName := "hyb", handlerArgs := [], options := [] }) ∧
    routeStep parentDemo [] [] =
      .error (.missingSubcommand "parent" ["add", "list", "remove"]) ∧
    runParentStep parentDemo [] [] =
      .error (.missingSubcommand "parent" ["add", "list", "remove"]) := by
  have hhyb := (c3_missing_subcommand hybridDemo [] [] []
    (by simp [hybridDemo, Cmd.subcommands]) (by decide) (by decide)).1 rfl
  have hpar := (c3_missing_subcommand parentDemo [] [] []
    (by simp [parentDemo, Cmd.subcommands]) (by decide) (by decide)).2 rfl
  refine ⟨?_, ?_, ?_⟩
  · rw [hhyb]
    decide
  · rw [hpar.1]
    decide
  · rw [hpar.2]
    decide

/-- C4: at a node with children, a usable subcommand token that matches no
child name or alias makes the routing step raise `UnknownSubcommandError`
carrying the declared child names and the suggestion engine's candidates
over all child names and aliases; at the spec's scenario the suggestion list
for `addd` over `add`, `list`, `remove` contains `add`. -/
theorem c4_unknown_subcommand (c : Cmd) (argv : List String)
    (inh : List (String × JSVal)) (vals : List (String × JSVal)) (sub : String)
    (hOpts : extractOptionsFromDefs (parseArgvWithOptions argv c.options) c.options = .ok vals)
    (hhead : (parseArgvWithOptions argv c.options).pos.head? = some sub)
    (husable : (decide (sub = "") || isFlagToken sub) = false)
    (hmatch : c.getSubcommandOrAlias sub = none) :
    routeStep c argv inh = .error (.unknownSubcommand sub c.subcommandNames
      (findSuggestions sub (c.subcommandNames ++ c.subAliases) none)) ∧
    "add" ∈ findSuggestions "addd" ["add", "list", "remove"] none := by
  constructor
  · unfold routeStep
    have hno : noUsableToken (parseArgvWithOptions argv c.options) = false := by
      unfold noUsableToken
      rw [hhead]
      exact husable
    simp only [Bind.bind, Except.bind, hOpts, hno]
    simp only [Bool.false_eq_true, if_false, hhead, Option.getD, hmatch]
  · decide

/-- Witness for C4 at the spec's scenario: the parent with children `add`,
`list`, `remove` on argv `addd` raises `UnknownSubcommandError` whose
suggestion list contains (here: equals) `add`. -/
theorem c4_unknown_subcommand_witness :
    routeStep parentDemo ["addd"] [] =
      .error (.unknownSubcommand "addd" ["add", "list", "remove"] ["add"]) ∧
    "add" ∈ findSuggestions "addd"
      (parentDemo.subcommandNames ++ parentDemo.subAliases) none := by
  have h := c4_unknown_subcommand parentDemo ["addd"] [] [] "addd"
    (by decide) (by decide) (by decide) rfl
  constructor
  · rw [h.1]
    decide
  · decide

/-! ### C5: unknown-flag handling -/

theorem flagListsStep_boolean_mono (fl : FlagLists) (p : String × OptionDef) (x : String)
    (h : x ∈ fl.booleanFlags) : x ∈ (flagListsStep fl p).booleanFlags := by
  unfold flagListsStep
  by_cases ht : p.2.type = OptionType.boolean <;>
    cases hs : p.2.short <;>
      by_cases hmu : p.2.multiple = true <;>
        simp [ht, hs, hmu, List.mem_append, h]

theorem foldl_flagLists_boolean_mono : ∀ (defs : List (String × OptionDef)) (fl : FlagLists)
    (x : String), x ∈ fl.booleanFlags → x ∈ (List.foldl flagListsStep fl defs).booleanFlags
  | [], _, _, h => h
  | p :: ds, fl, x, h =>
    foldl_flagLists_boolean_mono ds (flagListsStep fl p) x (flagListsStep_boolean_mono fl p x h)

theorem foldl_flagLists_negatable : ∀ (defs : List (String × OptionDef)) (fl : FlagLists)
    (key : String) (opt : OptionDef), (key, opt) ∈ defs → opt.type = .boolean →
    opt.negatable = true → ("no-" ++ opt.long) ∈ (List.foldl flagListsStep fl defs).booleanFlags
  | p :: ds, fl, key, opt, hmem, ht, hn => by
    rcases List.mem_cons.mp hmem with heq | hmem2
    · have hstep : ("no-" ++ opt.long) ∈ (flagListsStep fl p).booleanFlags := by
        rw [← heq]
        unfold flagListsStep
        cases hs : opt.short <;>
          by_cases hmu : opt.multiple = true <;>
            simp [ht, hn, hs, hmu, List.mem_append]
      exact foldl_flagLists_boolean_mono ds (flagListsStep fl p) _ hstep
    · exact foldl_flagLists_negatable ds (flagListsStep fl p) key opt hmem2 ht hn

/-- C5: any argv token that begins with the flag marker and whose name is
not declared in the in-scope option table (own options, inherited options,
or the two built-ins) makes the unknown-flag check raise
`UnknownOptionError` carrying the in-scope names and the suggestion
engine's candidates over them; the in-scope name set contains the `no-`
forms of all negatable booleans and the built-in `help`/`version`/`h`/`V`
names.  (The strict unknown-flag check is modelled from the spec; the
in-scope name set is built by the snapshot's flag-declaration loop.) -/
theorem c5_unknown_option (ownDefs inhDefs : List (String × OptionDef)) (argv : List String)
    (t : String)
    (hfind : argv.find? (fun t2 => isFlagToken t2 &&
      ¬ (scopeNames ownDefs inhDefs).contains (flagNameOf t2)) = some t) :
    checkUnknownOption ownDefs inhDefs argv =
      some (.unknownOption t (scopeNames ownDefs inhDefs)
        (findSuggestions (flagNameOf t) (scopeNames ownDefs inhDefs) none)) ∧
    isFlagToken t = true ∧
    (scopeNames ownDefs inhDefs).contains (flagNameOf t) = false ∧
    (∀ key opt, (key, opt) ∈ mergeAssoc inhDefs ownDefs → opt.type = .boolean →
      opt.negatable = true → ("no-" ++ opt.long) ∈ scopeNames ownDefs inhDefs) ∧
    "help" ∈ scopeNames ownDefs inhDefs ∧ "version" ∈ scopeNames ownDefs inhDefs ∧
    "h" ∈ scopeNames ownDefs inhDefs ∧ "V" ∈ scopeNames ownDefs inhDefs := by
  have hpred := List.find?_some hfind
  have hpred2 := Bool.and_eq_true _ _ |>.mp hpred
  refine ⟨?_, hpred2.1, ?_, ?_, ?_, ?_, ?_, ?_⟩
  · unfold checkUnknownOption
    simp only [hfind]
  · have h2 := hpred2.2
    cases hc : (scopeNames ownDefs inhDefs).contains (flagNameOf t) with
    | false => rfl
    | true => rw [hc] at h2; simp at h2
  · intro key opt hmem ht hn
    unfold scopeNames
    simp only [List.mem_append]
    exact Or.inl (Or.inl (Or.inl
      (foldl_flagLists_negatable (mergeAssoc inhDefs ownDefs) ⟨[], [], [], []⟩ key opt hmem ht hn)))
  all_goals
    unfold scopeNames
    simp [List.mem_append]

/-- Witness for C5: with the negatable `color` option in scope, the
misspelled flag `--colr` raises `UnknownOptionError` whose in-scope names
include `no-color` and the built-ins, and whose suggestions contain
`color`. -/
theorem c5_unknown_option_witness :
    checkUnknownOption (colorDefsD .undefined) [] ["--colr"] =
      some (.unknownOption "--colr" ["color", "no-color", "help", "version", "h", "V"]
        ["color"]) ∧
    "no-color" ∈ scopeNames (colorDefsD .undefined) [] := by
  have h := c5_unknown_option (colorDefsD .undefined) [] ["--colr"] "--colr" (by decide)
  constructor
  · rw [h.1]
    decide
  · exact h.2.2.2.1 "color" (colorOptD .undefined) (by decide) rfl rfl

/-! ### C7: reserved option names are construction-time errors -/

theorem validateReserved_error_shape : ∀ (opts : List (String × OptionDef)) (e : CliError),
    validateReservedOptions opts = .error e → ∃ flag, e = .reservedOption flag
  | [], e, h => by cases h
  | p :: ps, e, h => by
    unfold validateReservedOptions at h
    by_cases hl : p.2.long = "help" ∨ p.2.long = "version"
    · rw [if_pos hl] at h
      cases h
      exact ⟨"--" ++ p.2.long, rfl⟩
    · rw [if_neg hl] at h
      cases hs : p.2.short with
      | some s =>
        simp only [hs] at h
        by_cases hsv : s = "h" ∨ s = "V"
        · rw [if_pos hsv] at h
          cases h
          exact ⟨"-" ++ s, rfl⟩
        · rw [if_neg hsv] at h
          exact validateReserved_error_shape ps e h
      | none =>
        simp only [hs] at h
        exact validateReserved_error_shape ps e h

theorem validateReserved_violation_error : ∀ (opts : List (String × OptionDef)),
    (∃ p ∈ opts, reservedViolation p.2 = true) →
    ∃ flag, validateReservedOptions opts = .error (.reservedOption flag)
  | [], h => by
    obtain ⟨p, hp, _⟩ := h
    cases hp
  | p :: ps, h => by
    by_cases hl : p.2.long = "help" ∨ p.2.long = "version"
    · exact ⟨"--" ++ p.2.long, by unfold validateReservedOptions; rw [if_pos hl]⟩
    · cases hs : p.2.short with
      | some s =>
        by_cases hsv : s = "h" ∨ s = "V"
        · refine ⟨"-" ++ s, ?_⟩
          unfold validateReservedOptions
          rw [if_neg hl]
          simp only [hs]
          rw [if_pos hsv]
        · have htail : ∃ q ∈ ps, reservedViolation q.2 = true := by
            obtain ⟨q, hq, hv⟩ := h
            rcases List.mem_cons.mp hq with heq | hmem
            · exfalso
              subst heq
              simp only [reservedViolation, hs, decide_eq_true_eq] at hv
              rcases hv with h1 | h1 | h1 | h1
              · exact hl (Or.inl h1)
              · exact hl (Or.inr h1)
              · cases h1
                exact hsv (Or.inl rfl)
              · cases h1
                exact hsv (Or.inr rfl)
            · exact ⟨q, hmem, hv⟩
          obtain ⟨flag, hf⟩ := validateReserved_violation_error ps htail
          refine ⟨flag, ?_⟩
          unfold validateReservedOptions
          rw [if_neg hl]
          simp only [hs]
          rw [if_neg hsv, hf]
      | none =>
        have htail : ∃ q ∈ ps, reservedViolation q.2 = true := by
          obtain ⟨q, hq, hv⟩ := h
          rcases List.mem_cons.mp hq with heq | hmem
          · exfalso
            subst heq
            simp only [reservedViolation, hs, decide_eq_true_eq] at hv
            rcases hv with h1 | h1 | h1 | h1
            · exact hl (Or.inl h1)
            · exact hl (Or.inr h1)
            · cases h1
            · cases h1
          · exact ⟨q, hmem, hv⟩
        obtain ⟨flag, hf⟩ := validateReserved_violation_error ps htail
        refine ⟨flag, ?_⟩
        unfold validateReservedOptions
        rw [if_neg hl]
        simp only [hs]
        exact hf

theorem validateReserved_ok_no_violation : ∀ (opts : List (String × OptionDef)),
    validateReservedOptions opts = .ok () → ∀ p ∈ opts, reservedViolation p.2 = false := by
  intro opts hok p hp
  cases hv : reservedViolation p.2 with
  | false => rfl
  | true =>
    obtain ⟨flag, hf⟩ := validateReserved_violation_error opts ⟨p, hp, hv⟩
    rw [hok] at hf
    cases hf

/-- C7: for every command definition, own or inherited, that assigns the
reserved long name `help` or `version` or the reserved short alias `h` or
`V` to some option spec, the constructor fails with a `ReservedOptionError`
— a construction-time failure, so no command value is ever produced and no
invocation can occur.  (The other construction-time validations are assumed
to pass, and a parent definition carries no inherited table, so for parent
definitions only the own table is in scope.) -/
theorem c7_reserved_is_construction_error (d : CommandDef)
    (hargs : validateArgs d.args = .ok ())
    (hconf : validateOptionConflicts (normalizeOptions d.options)
      (normalizeOptions d.inherits) = .ok ())
    (hsubs : d.isParentDef = true → d.subcommands.length ≠ 0)
    (hviol : (∃ p ∈ normalizeOptions d.options, reservedViolation p.2 = true) ∨
      (d.isParentDef = false ∧
        ∃ p ∈ normalizeOptions d.inherits, reservedViolation p.2 = true)) :
    ∃ flag, mkCommand d = .error (.reservedOption flag) := by
  cases hp : d.isParentDef with
  | true =>
    have hlen : ¬ (d.subcommands.length = 0) := hsubs hp
    have hviol2 : ∃ p ∈ normalizeOptions d.options, reservedViolation p.2 = true := by
      rcases hviol with h1 | ⟨h2, _⟩
      · exact h1
      · rw [hp] at h2
        cases h2
    obtain ⟨flag, hf⟩ := validateReserved_violation_error _ hviol2
    refine ⟨flag, ?_⟩
    unfold mkCommand
    simp only [hp, if_pos rfl, hlen, Bind.bind, Except.bind, hf]
    simp [hlen, pure, Except.pure]
  | false =>
    unfold mkCommand
    simp only [hp, Bool.false_eq_true, if_false, Bind.bind, Except.bind, hargs, hconf]
    cases hinh : validateReservedOptions (normalizeOptions d.inherits) with
    | error e =>
      obtain ⟨flag, hflag⟩ := validateReserved_error_shape _ e hinh
      subst hflag
      exact ⟨flag, rfl⟩
    | ok u =>
      cases u
      have hviol2 : ∃ p ∈ normalizeOptions d.options, reservedViolation p.2 = true := by
        rcases hviol with h1 | ⟨_, h2⟩
        · exact h1
        · exfalso
          obtain ⟨q, hq, hv⟩ := h2
          have := validateReserved_ok_no_violation _ hinh q hq
          rw [hv] at this
          cases this
      obtain ⟨flag, hf⟩ := validateReserved_violation_error _ hviol2
      exact ⟨flag, by rw [hf]⟩

/-- Witness for C7: a leaf definition whose option table uses the key
`help` (hence normalized long name `help`) fails construction with a
`ReservedOptionError`. -/
theorem c7_reserved_is_construction_error_witness :
    validateArgs demoReservedDef.args = .ok () ∧
    ∃ flag, mkCommand demoReservedDef = .error (.reservedOption flag) := by
  refine ⟨by decide, ?_⟩
  exact c7_reserved_is_construction_error demoReservedDef (by decide) (by decide)
    (fun h => by cases h)
    (Or.inl ⟨("help", { long := "help" }), by decide, by decide⟩)
